import Mathlib

/-!
# cob_twist_controller: inverse differential kinematics solver

A shallow embedding of `InverseDifferentialKinematicsSolver::adjustJac` and
`InverseDifferentialKinematicsSolver::CartToJnt`
(`cob_twist_controller/src/inverse_differential_kinematics_solver.cpp`).

Modelling conventions.

* `double` is idealised as an exact commutative ring `K` (evaluated at `ℚ`);
  rounding is outside the model.
* A `KDL::JntArray` / the solver's output vector is an index-to-value map
  `ℕ → K`; C++ leaves out-of-range indices undefined and the model does not
  track the allocated size.
* Library code that the solver calls but that is not part of the repository
  sources at hand (the chain's Jacobian and forward-kinematics solvers, KDL's
  rotation-to-quaternion conversion, the constraint solver) is collected in
  the record `Collaborators` and every theorem quantifies over it.
* Where a statement depends on what KDL's conversion returns, the conversion
  is `Rotation.GetQuaternion`, KDL's own branch structure with the square
  root as a parameter.
* The Eigen primitives `cross`, `Quaterniond::toRotationMatrix` and
  `Quaterniond * Vector3d` are written out with Eigen's own formulas, without
  any normalisation of the quaternion (Eigen performs none).
-/

namespace CobTwist

/-! ## Eigen and KDL value types -/

/-- The type `Eigen::Vector3d`. -/
abbrev Vector3d (K : Type) := Fin 3 → K

/-- The type `t_Vector6d` (`Eigen::Matrix<double,6,1>`). -/
abbrev Vector6d (K : Type) := Fin 6 → K

/-- The type `Eigen::Matrix3d`. -/
abbrev Matrix3d (K : Type) := Matrix (Fin 3) (Fin 3) K

/-- The type `Eigen::Quaterniond`: four coefficients, no norm constraint. -/
structure Quaterniond (K : Type) where
  x : K
  y : K
  z : K
  w : K

/-- The type `KDL::Vector`. -/
structure Vector (K : Type) where
  x : K
  y : K
  z : K

/-- The type `KDL::Rotation`: nine stored coefficients. -/
abbrev Rotation (K : Type) := Matrix (Fin 3) (Fin 3) K

/-- The type `KDL::Frame`: orientation `M` and origin `p`. -/
structure Frame (K : Type) where
  M : Rotation K
  p : Vector K

/-- The type `KDL::JntArray`, as an index-to-value map. -/
abbrev JntArray (K : Type) := Nat → K

/-- The type `KDL::Jacobian`: a `6 × columns` matrix whose column count is
chosen at run time (`resize`). -/
structure Jacobian (K : Type) where
  columns : Nat
  data : Matrix (Fin 6) (Fin columns) K

/-- Bounds-checked read of a Jacobian coefficient `(i, j)`. -/
def Jacobian.coeff? {K : Type} (J : Jacobian K) (i : Fin 6) (j : Nat) : Option K :=
  if h : j < J.columns then some (J.data i ⟨j, h⟩) else none

section Eigen

variable {K : Type} [CommRing K]

/-- Eigen `a.cross(b)` for three-vectors. -/
def cross (a b : Vector3d K) : Vector3d K :=
  ![a 1 * b 2 - a 2 * b 1, a 2 * b 0 - a 0 * b 2, a 0 * b 1 - a 1 * b 0]

/-- Eigen `q.vec()`: the vector part of a quaternion. -/
def Quaterniond.vec (q : Quaterniond K) : Vector3d K := ![q.x, q.y, q.z]

/-- Eigen `QuaternionBase::toRotationMatrix` (no normalisation). -/
def Quaterniond.toRotationMatrix (q : Quaterniond K) : Matrix3d K :=
  let tx := 2 * q.x
  let ty := 2 * q.y
  let tz := 2 * q.z
  let twx := tx * q.w
  let twy := ty * q.w
  let twz := tz * q.w
  let txx := tx * q.x
  let txy := ty * q.x
  let txz := tz * q.x
  let tyy := ty * q.y
  let tyz := tz * q.y
  let tzz := tz * q.z
  !![1 - (tyy + tzz), txy - twz, txz + twy;
     txy + twz, 1 - (txx + tzz), tyz - twx;
     txz - twy, tyz + twx, 1 - (txx + tyy)]

/-- Eigen `q * v` (`QuaternionBase::_transformVector`, no normalisation):
`uv = q.vec().cross(v); uv += uv; return v + q.w() * uv + q.vec().cross(uv)`. -/
def Quaterniond.transformVector (q : Quaterniond K) (v : Vector3d K) : Vector3d K :=
  let uv := cross q.vec v
  let uv := uv + uv
  v + q.w • uv + cross q.vec uv

/-- Assignment `m(i,j) = v` to one coefficient of a `6 × 3` matrix. -/
def setCoeff (m : Matrix (Fin 6) (Fin 3) K) (i : Fin 6) (j : Fin 3) (v : K) :
    Matrix (Fin 6) (Fin 3) K :=
  fun a b => if a = i ∧ b = j then v else m a b

/-- Eigen comma initialiser `full << A, B` for two blocks of six rows: the
blocks are laid out left to right. -/
def commaInit {n m : Nat} (A : Matrix (Fin 6) (Fin n) K) (B : Matrix (Fin 6) (Fin m) K) :
    Matrix (Fin 6) (Fin (n + m)) K :=
  fun i => Fin.append (A i) (B i)

end Eigen

section Solver

variable {K : Type} [CommRing K]

/-- The block `jac_b` of `adjustJac` (source lines 102–142), as a function of
`params_.base_ratio`, `base_position` and the Eigen quaternion
`chain_base_quat` obtained from `chain_base.M`. -/
def jac_b (base_ratio : K) (base_position : Frame K) (chain_base_quat : Quaterniond K) :
    Matrix (Fin 6) (Fin 3) K :=
  let jac_b : Matrix (Fin 6) (Fin 3) K := 0
  let r_base_link : Vector3d K := ![base_position.p.x, base_position.p.y, base_position.p.z]
  let chain_base_rot : Matrix3d K := chain_base_quat.toRotationMatrix
  let w_base_link : Vector3d K := ![0, 0, base_ratio]
  let w_chain_base : Vector3d K := chain_base_quat.transformVector w_base_link
  let r_chain_base : Vector3d K := chain_base_quat.transformVector r_base_link
  let tangential_vel : Vector3d K := cross w_chain_base r_chain_base
  let jac_b := setCoeff jac_b 0 0 (base_ratio * chain_base_rot 0 0)
  let jac_b := setCoeff jac_b 0 1 (base_ratio * chain_base_rot 0 1)
  let jac_b := setCoeff jac_b 0 2 (tangential_vel 0)
  let jac_b := setCoeff jac_b 1 0 (base_ratio * chain_base_rot 1 0)
  let jac_b := setCoeff jac_b 1 1 (base_ratio * chain_base_rot 1 1)
  let jac_b := setCoeff jac_b 1 2 (tangential_vel 1)
  let jac_b := setCoeff jac_b 2 0 (base_ratio * chain_base_rot 2 0)
  let jac_b := setCoeff jac_b 2 1 (base_ratio * chain_base_rot 2 1)
  let jac_b := setCoeff jac_b 2 2 (tangential_vel 2)
  let jac_b := setCoeff jac_b 3 2 (w_chain_base 0)
  let jac_b := setCoeff jac_b 4 2 (w_chain_base 1)
  let jac_b := setCoeff jac_b 5 2 (w_chain_base 2)
  jac_b

/-- The fields of `AugmentedSolverParams` that the solver reads or writes in
this file; the remaining configuration fields are only forwarded. -/
structure AugmentedSolverParams (K : Type) where
  base_active : Bool
  base_ratio : K
  delta_p_vec : Vector6d K

/-- The type `KDL::Twist`: linear velocity `vel`, angular velocity `rot`. -/
structure Twist (K : Type) where
  vel : Vector K
  rot : Vector K

/-- Conversion `tf::twistKDLToEigen`: the six coefficients in order. -/
def twistKDLToEigen (k : Twist K) : Vector6d K :=
  ![k.vel.x, k.vel.y, k.vel.z, k.rot.x, k.rot.y, k.rot.z]

/-- The code the solver calls but does not define, for a chain of `N` joints
(`chain_.getNrOfJoints() = N`).

* `JntToJac`: the Jacobian `jac_chain` that `jnt2jac_.JntToJac(q_in, _)`
  leaves in a `KDL::Jacobian` constructed with `N` columns;
* `JntToCart`: `KDL::ChainFkSolverPos_recursive::JntToCart`;
* `GetQuaternion`: `KDL::Rotation::GetQuaternion`, which is also what
  `tf::quaternionKDLToEigen` calls; it involves a square root;
* `calculateJointVelocities`: the constraint solver, a function of its
  arguments returning a raw integer status and the vector `qdot_out_vec`. -/
structure Collaborators (K : Type) (N : Nat) where
  JntToJac : JntArray K → Matrix (Fin 6) (Fin N) K
  JntToCart : JntArray K → Frame K
  GetQuaternion : Rotation K → Quaterniond K
  calculateJointVelocities :
    AugmentedSolverParams K → Jacobian K → Vector6d K → JntArray K → JntArray K →
      Int × (Nat → K)

/-- The mutable members of `InverseDifferentialKinematicsSolver`. -/
structure InverseDifferentialKinematicsSolver (K : Type) where
  params_ : AugmentedSolverParams K
  jac_ : Jacobian K
  last_p_in_vec_ : Vector6d K

/-- Method `InverseDifferentialKinematicsSolver::adjustJac`: recomputes the
member `jac_`. -/
def adjustJac {N : Nat} (env : Collaborators K N) (self : InverseDifferentialKinematicsSolver K)
    (q_in : JntArray K) (base_position chain_base : Frame K) :
    InverseDifferentialKinematicsSolver K :=
  let jac_chain := env.JntToJac q_in
  if self.params_.base_active then
    let base_ratio := self.params_.base_ratio
    let chain_base_quat := env.GetQuaternion chain_base.M
    let jac_b := jac_b base_ratio base_position chain_base_quat
    let jac_full := commaInit jac_chain jac_b
    { self with jac_ := ⟨N + 3, jac_full⟩ }
  else
    { self with jac_ := ⟨N, jac_chain⟩ }

/-- Conversion of an integer value to `int8_t` (two's-complement wrap), read
back as an integer. -/
def toInt8 (v : Int) : Int := (v + 128) % 256 - 128

/-- The vector `p_in_vec` of `CartToJnt` (source lines 50–58): position of
the forward-kinematics pose followed by the vector part of its quaternion. -/
def p_in_vec {N : Nat} (env : Collaborators K N) (q_in : JntArray K) : Vector6d K :=
  let cartpos := env.JntToCart q_in
  let rot := env.GetQuaternion cartpos.M
  ![cartpos.p.x, cartpos.p.y, cartpos.p.z, rot.x, rot.y, rot.z]

/-- The solver object at the moment `calculateJointVelocities` is invoked
(source lines 45–60): `jac_` adjusted and `params_.delta_p_vec` assigned. -/
def beforeSolve {N : Nat} (env : Collaborators K N) (self : InverseDifferentialKinematicsSolver K)
    (q_in : JntArray K) (base_position chain_base : Frame K) :
    InverseDifferentialKinematicsSolver K :=
  let self := adjustJac env self q_in base_position chain_base
  { self with
    params_ := { self.params_ with delta_p_vec := p_in_vec env q_in - self.last_p_in_vec_ } }

/-- What the constraint solver returns for the call of source lines 63–68. -/
def solverCall {N : Nat} (env : Collaborators K N) (self : InverseDifferentialKinematicsSolver K)
    (q_in last_q_dot : JntArray K) (v_in : Twist K) (base_position chain_base : Frame K) :
    Int × (Nat → K) :=
  let self := beforeSolve env self q_in base_position chain_base
  env.calculateJointVelocities self.params_ self.jac_ (twistKDLToEigen v_in) q_in last_q_dot

/-- The output loop `for (i = 0; i < columns; i++) qdot_out(i) = qdot_out_vec(i)`. -/
def convertOutput (columns : Nat) (qdot_out_vec : Nat → K) (qdot_out : JntArray K) : JntArray K :=
  (List.range columns).foldl (fun out i => Function.update out i (qdot_out_vec i)) qdot_out

/-- Everything `CartToJnt` leaves behind: the returned `int`, the output
array and the solver object. -/
structure CartToJntResult (K : Type) where
  ret : Int
  qdot_out : JntArray K
  self : InverseDifferentialKinematicsSolver K

set_option linter.unusedVariables false in
/-- Method `InverseDifferentialKinematicsSolver::CartToJnt`. -/
def CartToJnt {N : Nat} (env : Collaborators K N) (self : InverseDifferentialKinematicsSolver K)
    (q_in last_q_dot : JntArray K) (v_in : Twist K) (base_position chain_base : Frame K)
    (qdot_out : JntArray K) : CartToJntResult K :=
  let retStat : Int := toInt8 (-1)
  let self := beforeSolve env self q_in base_position chain_base
  let solved := env.calculateJointVelocities self.params_ self.jac_ (twistKDLToEigen v_in)
    q_in last_q_dot
  let retStat : Int := toInt8 solved.1
  let qdot_out := convertOutput self.jac_.columns solved.2 qdot_out
  let self := { self with last_p_in_vec_ := p_in_vec env q_in }
  { ret := retStat, qdot_out := qdot_out, self := self }

end Solver

/-! ## KDL rotation and quaternion conversions -/

section KDL

/-- KDL `Rotation::Quaternion(x, y, z, w)`: the nine coefficients are the
homogeneous quadratic forms of the quaternion, without any normalisation. -/
def Rotation.Quaternion {K : Type} [CommRing K] (x y z w : K) : Rotation K :=
  let x2 := x * x
  let y2 := y * y
  let z2 := z * z
  let w2 := w * w
  !![w2 + x2 - y2 - z2, 2 * x * y - 2 * w * z, 2 * x * z + 2 * w * y;
     2 * x * y + 2 * w * z, w2 - x2 + y2 - z2, 2 * y * z - 2 * w * x;
     2 * x * z - 2 * w * y, 2 * y * z + 2 * w * x, w2 - x2 - y2 + z2]

/-- KDL `Rotation::GetQuaternion(x, y, z, w)`, the conversion behind
`tf::quaternionKDLToEigen`, with the square root as a parameter. A division
by a zero `s` (infinite or NaN in C++) is outside the model. -/
def Rotation.GetQuaternion {K : Type} [LinearOrderedField K] (sqrt : K → K) (M : Rotation K) :
    Quaterniond K :=
  let trace := M 0 0 + M 1 1 + M 2 2
  let epsilon : K := 1 / 10 ^ 12
  if trace > epsilon then
    let s := (1 / 2) / sqrt (trace + 1)
    { w := (1 / 4) / s
      x := (M 2 1 - M 1 2) * s
      y := (M 0 2 - M 2 0) * s
      z := (M 1 0 - M 0 1) * s }
  else if M 0 0 > M 1 1 ∧ M 0 0 > M 2 2 then
    let s := 2 * sqrt (1 + M 0 0 - M 1 1 - M 2 2)
    { w := (M 2 1 - M 1 2) / s
      x := (1 / 4) * s
      y := (M 0 1 + M 1 0) / s
      z := (M 0 2 + M 2 0) / s }
  else if M 1 1 > M 2 2 then
    let s := 2 * sqrt (1 + M 1 1 - M 0 0 - M 2 2)
    { w := (M 0 2 - M 2 0) / s
      x := (M 0 1 + M 1 0) / s
      y := (1 / 4) * s
      z := (M 1 2 + M 2 1) / s }
  else
    let s := 2 * sqrt (1 + M 2 2 - M 0 0 - M 1 1)
    { w := (M 1 0 - M 0 1) / s
      x := (M 0 2 + M 2 0) / s
      y := (M 1 2 + M 2 1) / s
      z := (1 / 4) * s }

end KDL

/-! ## The construction of the base block as the specification words it -/

section Spec

variable {K : Type} [CommRing K]

/-- The base block as the specification describes it: columns 0 and 1 carry
`b • R` columns 0 and 1 in rows 0–2 and zero in rows 3–5; column 2 carries
`w × r` in rows 0–2 and `w` in rows 3–5. -/
def jac_b_spec (b : K) (R : Matrix3d K) (w r : Vector3d K) : Matrix (Fin 6) (Fin 3) K :=
  fun i j =>
    if j.val < 2 then
      if h : i.val < 3 then b * R ⟨i.val, h⟩ j else 0
    else
      if h : i.val < 3 then (crossProduct w r) ⟨i.val, h⟩
      else w ⟨i.val - 3, by omega⟩

end Spec

/-! ## Sample data -/

section Sample

/-- A two-joint sample environment over `ℚ`: a planar-arm-like Jacobian, a
forward kinematics that keeps the orientation fixed, the first-order
rotation-to-quaternion conversion (exact at the identity), and a constraint
solver that reports status `-2` and echoes the twist. -/
def sampleEnv : Collaborators ℚ 2 where
  JntToJac := fun q i j => q j.val + (i.val : ℚ)
  JntToCart := fun q => ⟨1, ⟨q 0, q 1, q 0 + q 1⟩⟩
  GetQuaternion := fun M => ⟨(M 2 1 - M 1 2) / 4, (M 0 2 - M 2 0) / 4, (M 1 0 - M 0 1) / 4, 1⟩
  calculateJointVelocities := fun p _ v _ _ => (-2, fun i => v 0 + p.base_ratio * (i : ℚ))

/-- The sample environment with KDL's rotation-to-quaternion conversion, the
square root being the rational one (exact on squares of rationals). -/
def kdlEnv : Collaborators ℚ 2 :=
  { sampleEnv with GetQuaternion := Rotation.GetQuaternion Rat.sqrt }

/-- A sample solver object; `base_active` and `base_ratio` are arguments. -/
def sampleSolver (base_active : Bool) (base_ratio : ℚ) : InverseDifferentialKinematicsSolver ℚ where
  params_ := ⟨base_active, base_ratio, 0⟩
  jac_ := ⟨0, 0⟩
  last_p_in_vec_ := 0

/-- A sample frame: identity orientation at the point `(px, py, pz)`. -/
def sampleFrame (px py pz : ℚ) : Frame ℚ := ⟨1, ⟨px, py, pz⟩⟩

/-- The frame `dummy` of the four-argument `AugmentedSolver::CartToJnt`
overloads: `dummy.p = KDL::Vector(0,0,0)` and
`dummy.M = KDL::Rotation::Quaternion(0,0,0,0)`. -/
def dummy : Frame ℚ := ⟨Rotation.Quaternion 0 0 0 0, ⟨0, 0, 0⟩⟩

end Sample

/-! ## Coefficient lemmas -/

section Lemmas

variable {K : Type} [CommRing K]

/-- The six coefficients that the two translational columns receive in the
linear-velocity rows. -/
theorem jac_b_trans_lin (b : K) (p : Frame K) (q : Quaterniond K) :
    jac_b b p q 0 0 = b * q.toRotationMatrix 0 0 ∧ jac_b b p q 1 0 = b * q.toRotationMatrix 1 0 ∧
    jac_b b p q 2 0 = b * q.toRotationMatrix 2 0 ∧ jac_b b p q 0 1 = b * q.toRotationMatrix 0 1 ∧
    jac_b b p q 1 1 = b * q.toRotationMatrix 1 1 ∧ jac_b b p q 2 1 = b * q.toRotationMatrix 2 1 := by
  simp [jac_b, setCoeff]

/-- The angular-velocity rows of the two translational columns keep the value
written by `setZero`. -/
theorem jac_b_trans_ang (b : K) (p : Frame K) (q : Quaterniond K) :
    jac_b b p q 3 0 = 0 ∧ jac_b b p q 4 0 = 0 ∧ jac_b b p q 5 0 = 0 ∧
    jac_b b p q 3 1 = 0 ∧ jac_b b p q 4 1 = 0 ∧ jac_b b p q 5 1 = 0 := by
  simp [jac_b, setCoeff]

/-- The six coefficients of the yaw column. -/
theorem jac_b_yaw (b : K) (p : Frame K) (q : Quaterniond K) :
    jac_b b p q 0 2
      = cross (q.transformVector ![0, 0, b]) (q.transformVector ![p.p.x, p.p.y, p.p.z]) 0 ∧
    jac_b b p q 1 2
      = cross (q.transformVector ![0, 0, b]) (q.transformVector ![p.p.x, p.p.y, p.p.z]) 1 ∧
    jac_b b p q 2 2
      = cross (q.transformVector ![0, 0, b]) (q.transformVector ![p.p.x, p.p.y, p.p.z]) 2 ∧
    jac_b b p q 3 2 = q.transformVector ![0, 0, b] 0 ∧
    jac_b b p q 4 2 = q.transformVector ![0, 0, b] 1 ∧
    jac_b b p q 5 2 = q.transformVector ![0, 0, b] 2 := by
  simp [jac_b, setCoeff]

/-- The three components of `q * v`, expanded. -/
theorem transformVector_apply (q : Quaterniond K) (v : Vector3d K) :
    q.transformVector v 0 = v 0 + q.w * (2 * (q.y * v 2 - q.z * v 1))
      + (q.y * (2 * (q.x * v 1 - q.y * v 0)) - q.z * (2 * (q.z * v 0 - q.x * v 2))) ∧
    q.transformVector v 1 = v 1 + q.w * (2 * (q.z * v 0 - q.x * v 2))
      + (q.z * (2 * (q.y * v 2 - q.z * v 1)) - q.x * (2 * (q.x * v 1 - q.y * v 0))) ∧
    q.transformVector v 2 = v 2 + q.w * (2 * (q.x * v 1 - q.y * v 0))
      + (q.x * (2 * (q.z * v 0 - q.x * v 2)) - q.y * (2 * (q.y * v 2 - q.z * v 1))) := by
  refine ⟨?_, ?_, ?_⟩ <;>
    simp [Quaterniond.transformVector, cross, Quaterniond.vec, Matrix.vecHead, Matrix.vecTail] <;>
    ring

/-- The nine coefficients of `q.toRotationMatrix()`, expanded. -/
theorem toRotationMatrix_apply (q : Quaterniond K) :
    q.toRotationMatrix 0 0 = 1 - (2 * q.y * q.y + 2 * q.z * q.z) ∧
    q.toRotationMatrix 0 1 = 2 * q.y * q.x - 2 * q.z * q.w ∧
    q.toRotationMatrix 0 2 = 2 * q.z * q.x + 2 * q.y * q.w ∧
    q.toRotationMatrix 1 0 = 2 * q.y * q.x + 2 * q.z * q.w ∧
    q.toRotationMatrix 1 1 = 1 - (2 * q.x * q.x + 2 * q.z * q.z) ∧
    q.toRotationMatrix 1 2 = 2 * q.z * q.y - 2 * q.x * q.w ∧
    q.toRotationMatrix 2 0 = 2 * q.z * q.x - 2 * q.y * q.w ∧
    q.toRotationMatrix 2 1 = 2 * q.z * q.y + 2 * q.x * q.w ∧
    q.toRotationMatrix 2 2 = 1 - (2 * q.x * q.x + 2 * q.y * q.y) := by
  simp [Quaterniond.toRotationMatrix]

/-- Eigen's cross product is the cross product of Mathlib. -/
theorem cross_eq_crossProduct (a b : Vector3d K) : cross a b = crossProduct a b := by
  ext i
  fin_cases i <;> simp [cross, crossProduct]

/-- Eigen's `q * v` is multiplication by `q.toRotationMatrix()`, whether or
not `q` has unit norm. -/
theorem transformVector_eq_mulVec (q : Quaterniond K) (v : Vector3d K) :
    q.transformVector v = q.toRotationMatrix.mulVec v := by
  obtain ⟨h0, h1, h2⟩ := transformVector_apply q v
  obtain ⟨r00, r01, r02, r10, r11, r12, r20, r21, r22⟩ := toRotationMatrix_apply q
  ext i
  fin_cases i
  · show q.transformVector v 0 = q.toRotationMatrix.mulVec v 0
    rw [h0]
    simp only [Matrix.mulVec, Matrix.dotProduct, Fin.sum_univ_three, r00, r01, r02]
    ring
  · show q.transformVector v 1 = q.toRotationMatrix.mulVec v 1
    rw [h1]
    simp only [Matrix.mulVec, Matrix.dotProduct, Fin.sum_univ_three, r10, r11, r12]
    ring
  · show q.transformVector v 2 = q.toRotationMatrix.mulVec v 2
    rw [h2]
    simp only [Matrix.mulVec, Matrix.dotProduct, Fin.sum_univ_three, r20, r21, r22]
    ring

/-- Every coefficient of a `6 × 3` block is one of the eighteen listed ones. -/
theorem forall_fin6_fin3 (P : Fin 6 → Fin 3 → Prop)
    (h : (P 0 0 ∧ P 1 0 ∧ P 2 0 ∧ P 3 0 ∧ P 4 0 ∧ P 5 0) ∧
         (P 0 1 ∧ P 1 1 ∧ P 2 1 ∧ P 3 1 ∧ P 4 1 ∧ P 5 1) ∧
         (P 0 2 ∧ P 1 2 ∧ P 2 2 ∧ P 3 2 ∧ P 4 2 ∧ P 5 2)) : ∀ i j, P i j := by
  obtain ⟨⟨a0, a1, a2, a3, a4, a5⟩, ⟨b0, b1, b2, b3, b4, b5⟩, ⟨c0, c1, c2, c3, c4, c5⟩⟩ := h
  intro i j
  fin_cases i <;> fin_cases j <;> assumption

omit [CommRing K] in
/-- The output loop writes exactly the indices below `columns`. -/
theorem convertOutput_apply (columns : Nat) (src : Nat → K) (out : JntArray K) (i : Nat) :
    convertOutput columns src out i = if i < columns then src i else out i := by
  unfold convertOutput
  induction columns with
  | zero => simp
  | succ n ih =>
    rw [List.range_succ, List.foldl_append, List.foldl_cons, List.foldl_nil]
    by_cases hi : i = n
    · subst hi
      simp
    · rw [Function.update_noteq hi, ih]
      by_cases hlt : i < n
      · simp [hlt, Nat.lt_succ_of_lt hlt]
      · have : ¬ i < n + 1 := by omega
        simp [hlt, this]

/-- With the base inactive `adjustJac` stores the chain Jacobian. -/
theorem adjustJac_jac_inactive {N : Nat} (env : Collaborators K N)
    (self : InverseDifferentialKinematicsSolver K) (q_in : JntArray K)
    (base_position chain_base : Frame K) (h : self.params_.base_active = false) :
    (adjustJac env self q_in base_position chain_base).jac_ = ⟨N, env.JntToJac q_in⟩ := by
  simp [adjustJac, h]

/-- With the base active `adjustJac` stores the comma-initialised matrix. -/
theorem adjustJac_jac_active {N : Nat} (env : Collaborators K N)
    (self : InverseDifferentialKinematicsSolver K) (q_in : JntArray K)
    (base_position chain_base : Frame K) (h : self.params_.base_active = true) :
    (adjustJac env self q_in base_position chain_base).jac_ =
      ⟨N + 3, commaInit (env.JntToJac q_in)
        (jac_b self.params_.base_ratio base_position (env.GetQuaternion chain_base.M))⟩ := by
  simp [adjustJac, h]

omit [CommRing K] in
/-- Reading an arm column of the comma-initialised Jacobian. -/
theorem coeff_commaInit_left {n m : Nat} (A : Matrix (Fin 6) (Fin n) K)
    (B : Matrix (Fin 6) (Fin m) K) (i : Fin 6) (j : Nat) (hj : j < n) :
    (Jacobian.mk (n + m) (commaInit A B)).coeff? i j = some (A i ⟨j, hj⟩) := by
  have hlt : j < n + m := by omega
  have hc : (⟨j, hlt⟩ : Fin (n + m)) = Fin.castAdd m ⟨j, hj⟩ := rfl
  simp only [Jacobian.coeff?, hlt, dite_true, commaInit, hc, Fin.append_left]

omit [CommRing K] in
/-- Reading an appended column of the comma-initialised Jacobian. -/
theorem coeff_commaInit_right {n m : Nat} (A : Matrix (Fin 6) (Fin n) K)
    (B : Matrix (Fin 6) (Fin m) K) (i : Fin 6) (j : Fin m) :
    (Jacobian.mk (n + m) (commaInit A B)).coeff? i (n + j.val) = some (B i j) := by
  have hlt : n + j.val < n + m := by omega
  have hc : (⟨n + j.val, hlt⟩ : Fin (n + m)) = Fin.natAdd n j := rfl
  simp only [Jacobian.coeff?, hlt, dite_true, commaInit, hc, Fin.append_right]

/-- Members other than `jac_` are left alone by `adjustJac`. -/
theorem adjustJac_frame {N : Nat} (env : Collaborators K N)
    (self : InverseDifferentialKinematicsSolver K) (q_in : JntArray K)
    (base_position chain_base : Frame K) :
    (adjustJac env self q_in base_position chain_base).params_ = self.params_ ∧
    (adjustJac env self q_in base_position chain_base).last_p_in_vec_ = self.last_p_in_vec_ := by
  unfold adjustJac
  split <;> simp

end Lemmas

/-! ## The Jacobian augmentation -/

section Augmentation

variable {K : Type} [CommRing K]

/-- C1. With `params_.base_active` false, `adjustJac` leaves `jac_` with
exactly `N` columns holding the raw chain Jacobian, and the result is the same
for every other base position, chain-base frame and base ratio. -/
theorem adjustJac_inactive_identity {N : Nat} (env : Collaborators K N)
    (self : InverseDifferentialKinematicsSolver K) (q_in : JntArray K)
    (base_position chain_base : Frame K) (h : self.params_.base_active = false) :
    (adjustJac env self q_in base_position chain_base).jac_ = ⟨N, env.JntToJac q_in⟩ ∧
    (adjustJac env self q_in base_position chain_base).jac_.columns = N ∧
    (∀ (i : Fin 6) (j : Nat) (hj : j < N),
      (adjustJac env self q_in base_position chain_base).jac_.coeff? i j
        = some (env.JntToJac q_in i ⟨j, hj⟩)) ∧
    (∀ (base_position2 chain_base2 : Frame K) (base_ratio2 : K),
      (adjustJac env { self with params_ := { self.params_ with base_ratio := base_ratio2 } }
        q_in base_position2 chain_base2).jac_
        = (adjustJac env self q_in base_position chain_base).jac_) := by
  have hj := adjustJac_jac_inactive env self q_in base_position chain_base h
  refine ⟨hj, ?_, ?_, ?_⟩
  · rw [hj]
  · intro i j hlt
    rw [hj]
    simp [Jacobian.coeff?, hlt]
  · intro bp2 cb2 r2
    rw [hj]
    exact adjustJac_jac_inactive env _ q_in bp2 cb2 h

/-- C1, evaluated on the sample chain with the base inactive. -/
theorem adjustJac_inactive_identity_sample :
    (sampleSolver false 1).params_.base_active = false ∧
    (adjustJac sampleEnv (sampleSolver false 1) (fun _ => 0) (sampleFrame 1 2 3)
        (sampleFrame 0 0 0)).jac_.columns = 2 :=
  ⟨rfl, (adjustJac_inactive_identity sampleEnv (sampleSolver false 1) (fun _ => 0)
    (sampleFrame 1 2 3) (sampleFrame 0 0 0) rfl).2.1⟩

/-- C2. The base block is linear in the base ratio: the block for `k * b` is
`k` times the block for `b` in all eighteen coefficients, and the block for
base ratio `0` is zero. -/
theorem jac_b_ratio_scaling (k b : K) (base_position : Frame K) (q : Quaterniond K) :
    (∀ i j, jac_b (k * b) base_position q i j = k * jac_b b base_position q i j) ∧
    jac_b (k * b) base_position q = k • jac_b b base_position q ∧
    jac_b 0 base_position q = 0 := by
  have key : ∀ (k b : K) i j,
      jac_b (k * b) base_position q i j = k * jac_b b base_position q i j := by
    intro k b
    obtain ⟨a0, a1, a2, a3, a4, a5⟩ := jac_b_trans_lin (k * b) base_position q
    obtain ⟨b0, b1, b2, b3, b4, b5⟩ := jac_b_trans_ang (k * b) base_position q
    obtain ⟨c0, c1, c2, c3, c4, c5⟩ := jac_b_yaw (k * b) base_position q
    obtain ⟨d0, d1, d2, d3, d4, d5⟩ := jac_b_trans_lin b base_position q
    obtain ⟨e0, e1, e2, e3, e4, e5⟩ := jac_b_trans_ang b base_position q
    obtain ⟨f0, f1, f2, f3, f4, f5⟩ := jac_b_yaw b base_position q
    obtain ⟨t0, t1, t2⟩ := transformVector_apply q ![0, 0, k * b]
    obtain ⟨u0, u1, u2⟩ := transformVector_apply q ![0, 0, b]
    apply forall_fin6_fin3
    refine ⟨⟨?_, ?_, ?_, ?_, ?_, ?_⟩, ⟨?_, ?_, ?_, ?_, ?_, ?_⟩, ⟨?_, ?_, ?_, ?_, ?_, ?_⟩⟩
    · rw [a0, d0]; ring
    · rw [a1, d1]; ring
    · rw [a2, d2]; ring
    · rw [b0, e0]; ring
    · rw [b1, e1]; ring
    · rw [b2, e2]; ring
    · rw [a3, d3]; ring
    · rw [a4, d4]; ring
    · rw [a5, d5]; ring
    · rw [b3, e3]; ring
    · rw [b4, e4]; ring
    · rw [b5, e5]; ring
    · rw [c0, f0]; simp only [cross, Matrix.cons_val_zero, t1, t2, u1, u2]; simp; ring
    · rw [c1, f1]; simp only [cross, Matrix.cons_val_one, Matrix.head_cons, t0, t2, u0, u2]
      simp; ring
    · rw [c2, f2]; simp only [cross, Matrix.cons_val_two, Matrix.tail_cons, Matrix.head_cons,
        t0, t1, u0, u1]
      simp; ring
    · rw [c3, f3, t0, u0]; simp; ring
    · rw [c4, f4, t1, u1]; simp; ring
    · rw [c5, f5, t2, u2]; simp; ring
  refine ⟨key k b, ?_, ?_⟩
  · ext i j
    simpa using key k b i j
  · ext i j
    have := key 0 b i j
    simpa using this

/-- C7. The block built by the coefficient assignments of `adjustJac` is the
specified construction with `R = q.toRotationMatrix()`, `w = q * (0,0,b)` and
`r = q * p`. -/
theorem jac_b_eq_spec (b : K) (base_position : Frame K) (q : Quaterniond K) :
    jac_b b base_position q =
      jac_b_spec b q.toRotationMatrix (q.transformVector ![0, 0, b])
        (q.transformVector ![base_position.p.x, base_position.p.y, base_position.p.z]) := by
  obtain ⟨a0, a1, a2, a3, a4, a5⟩ := jac_b_trans_lin b base_position q
  obtain ⟨b0, b1, b2, b3, b4, b5⟩ := jac_b_trans_ang b base_position q
  obtain ⟨c0, c1, c2, c3, c4, c5⟩ := jac_b_yaw b base_position q
  have h := forall_fin6_fin3 (fun i j => jac_b b base_position q i j =
      jac_b_spec b q.toRotationMatrix (q.transformVector ![0, 0, b])
        (q.transformVector ![base_position.p.x, base_position.p.y, base_position.p.z]) i j)
  ext i j
  apply h
  refine ⟨⟨?_, ?_, ?_, ?_, ?_, ?_⟩, ⟨?_, ?_, ?_, ?_, ?_, ?_⟩, ⟨?_, ?_, ?_, ?_, ?_, ?_⟩⟩
  · rw [a0]; rfl
  · rw [a1]; rfl
  · rw [a2]; rfl
  · rw [b0]; rfl
  · rw [b1]; rfl
  · rw [b2]; rfl
  · rw [a3]; rfl
  · rw [a4]; rfl
  · rw [a5]; rfl
  · rw [b3]; rfl
  · rw [b4]; rfl
  · rw [b5]; rfl
  · rw [c0, cross_eq_crossProduct]; rfl
  · rw [c1, cross_eq_crossProduct]; rfl
  · rw [c2, cross_eq_crossProduct]; rfl
  · rw [c3]; rfl
  · rw [c4]; rfl
  · rw [c5]; rfl

/-- Column count and coefficients of `jac_` after `adjustJac` with the base
active. -/
theorem adjustJac_active_coeffs {N : Nat} (env : Collaborators K N)
    (self : InverseDifferentialKinematicsSolver K) (q_in : JntArray K)
    (base_position chain_base : Frame K) (h : self.params_.base_active = true) :
    (adjustJac env self q_in base_position chain_base).jac_.columns = N + 3 ∧
    (∀ (i : Fin 6) (j : Nat) (hj : j < N),
      (adjustJac env self q_in base_position chain_base).jac_.coeff? i j
        = some (env.JntToJac q_in i ⟨j, hj⟩)) ∧
    (∀ (i : Fin 6) (j : Fin 3),
      (adjustJac env self q_in base_position chain_base).jac_.coeff? i (N + j.val)
        = some (jac_b self.params_.base_ratio base_position
            (env.GetQuaternion chain_base.M) i j)) := by
  have hj := adjustJac_jac_active env self q_in base_position chain_base h
  refine ⟨?_, ?_, ?_⟩
  · rw [hj]
  · intro i j hlt
    rw [hj]
    exact coeff_commaInit_left _ _ i j hlt
  · intro i j
    rw [hj]
    exact coeff_commaInit_right _ _ i j

/-- C8. With `params_.base_active` true, `jac_` has `N + 3` columns: columns
`0 .. N-1` are the raw chain Jacobian, whatever the base pose and base ratio,
and columns `N`, `N+1`, `N+2` are the columns 0, 1, 2 of the base block. -/
theorem adjustJac_active_layout {N : Nat} (env : Collaborators K N)
    (self : InverseDifferentialKinematicsSolver K) (q_in : JntArray K)
    (base_position chain_base : Frame K) (h : self.params_.base_active = true) :
    (adjustJac env self q_in base_position chain_base).jac_.columns = N + 3 ∧
    (∀ (i : Fin 6) (j : Nat) (hj : j < N),
      (adjustJac env self q_in base_position chain_base).jac_.coeff? i j
        = some (env.JntToJac q_in i ⟨j, hj⟩)) ∧
    (∀ (base_position2 chain_base2 : Frame K) (base_ratio2 : K) (i : Fin 6) (j : Nat)
      (hj : j < N),
      (adjustJac env { self with params_ := { self.params_ with base_ratio := base_ratio2 } }
        q_in base_position2 chain_base2).jac_.coeff? i j = some (env.JntToJac q_in i ⟨j, hj⟩)) ∧
    (∀ (i : Fin 6) (j : Fin 3),
      (adjustJac env self q_in base_position chain_base).jac_.coeff? i (N + j.val)
        = some (jac_b self.params_.base_ratio base_position
            (env.GetQuaternion chain_base.M) i j)) := by
  obtain ⟨h1, h2, h3⟩ := adjustJac_active_coeffs env self q_in base_position chain_base h
  refine ⟨h1, h2, ?_, h3⟩
  intro bp2 cb2 r2 i j hj
  exact (adjustJac_active_coeffs env
    { self with params_ := { self.params_ with base_ratio := r2 } } q_in bp2 cb2 h).2.1 i j hj

/-- C8, evaluated on the sample chain with the base active. -/
theorem adjustJac_active_layout_sample :
    (sampleSolver true 1).params_.base_active = true ∧
    (adjustJac sampleEnv (sampleSolver true 1) (fun _ => 0) (sampleFrame 1 2 3)
        (sampleFrame 0 0 0)).jac_.columns = 2 + 3 :=
  ⟨rfl, (adjustJac_active_layout sampleEnv (sampleSolver true 1) (fun _ => 0)
    (sampleFrame 1 2 3) (sampleFrame 0 0 0) rfl).1⟩

/-- The block for a quaternion with zero vector part, whatever its `w`
(among them the identity quaternion): Eigen's formulas then give the identity
matrix and the identity map. -/
theorem jac_b_of_vec_zero (b w : K) (base_position : Frame K) :
    ∀ i j, jac_b b base_position ⟨0, 0, 0, w⟩ i j =
      if j = 0 then (if i = 0 then b else 0)
      else if j = 1 then (if i = 1 then b else 0)
      else (if i = 0 then -(b * base_position.p.y) else if i = 1 then b * base_position.p.x
            else if i = 5 then b else 0) := by
  obtain ⟨a0, a1, a2, a3, a4, a5⟩ := jac_b_trans_lin b base_position ⟨0, 0, 0, w⟩
  obtain ⟨b0, b1, b2, b3, b4, b5⟩ := jac_b_trans_ang b base_position ⟨0, 0, 0, w⟩
  obtain ⟨c0, c1, c2, c3, c4, c5⟩ := jac_b_yaw b base_position ⟨0, 0, 0, w⟩
  obtain ⟨r00, r01, r02, r10, r11, r12, r20, r21, r22⟩ :=
    toRotationMatrix_apply (⟨0, 0, 0, w⟩ : Quaterniond K)
  have tv : ∀ v : Vector3d K, (⟨0, 0, 0, w⟩ : Quaterniond K).transformVector v = v := by
    intro v
    obtain ⟨t0, t1, t2⟩ := transformVector_apply (⟨0, 0, 0, w⟩ : Quaterniond K) v
    ext i
    fin_cases i
    · show (⟨0, 0, 0, w⟩ : Quaterniond K).transformVector v 0 = v 0
      rw [t0]; simp
    · show (⟨0, 0, 0, w⟩ : Quaterniond K).transformVector v 1 = v 1
      rw [t1]; simp
    · show (⟨0, 0, 0, w⟩ : Quaterniond K).transformVector v 2 = v 2
      rw [t2]; simp
  rw [tv, tv] at c0 c1 c2
  rw [tv] at c3 c4 c5
  apply forall_fin6_fin3
  refine ⟨⟨?_, ?_, ?_, ?_, ?_, ?_⟩, ⟨?_, ?_, ?_, ?_, ?_, ?_⟩, ⟨?_, ?_, ?_, ?_, ?_, ?_⟩⟩
  · rw [a0, r00]; simp
  · rw [a1, r10]; simp
  · rw [a2, r20]; simp
  · rw [b0]; simp
  · rw [b1]; simp
  · rw [b2]; simp
  · rw [a3, r01]; simp
  · rw [a4, r11]; simp
  · rw [a5, r21]; simp
  · rw [b3]; simp
  · rw [b4]; simp
  · rw [b5]; simp
  · rw [c0]; simp [cross]
  · rw [c1]; simp [cross]
  · rw [c2]; simp [cross]
  · rw [c3]; simp
  · rw [c4]; simp
  · rw [c5]; simp

/-- C3. Base active, identity chain-base quaternion, base position at the
origin: the yaw column of the appended block is `(0,0,0,0,0,base_ratio)` and
the two translational columns have zero angular rows. -/
theorem adjustJac_identity_origin {N : Nat} (env : Collaborators K N)
    (self : InverseDifferentialKinematicsSolver K) (q_in : JntArray K)
    (base_position chain_base : Frame K) (hact : self.params_.base_active = true)
    (hrot : env.GetQuaternion chain_base.M = ⟨0, 0, 0, 1⟩)
    (hpos : base_position.p = ⟨0, 0, 0⟩) :
    (∀ i : Fin 6, (adjustJac env self q_in base_position chain_base).jac_.coeff? i (N + 2)
        = some (if i = 5 then self.params_.base_ratio else 0)) ∧
    (∀ i : Fin 6, 3 ≤ i.val →
      (adjustJac env self q_in base_position chain_base).jac_.coeff? i N = some 0 ∧
      (adjustJac env self q_in base_position chain_base).jac_.coeff? i (N + 1) = some 0) := by
  obtain ⟨-, -, hb⟩ := adjustJac_active_coeffs env self q_in base_position chain_base hact
  have hz := jac_b_of_vec_zero self.params_.base_ratio 1 base_position
  refine ⟨?_, ?_⟩
  · intro i
    have := hb i 2
    rw [hrot, hz] at this
    change (adjustJac env self q_in base_position chain_base).jac_.coeff? i (N + 2) = _ at this
    rw [this, hpos]
    fin_cases i <;> simp
  · intro i hi
    have h0 := hb i 0
    have h1 := hb i 1
    rw [hrot, hz] at h0 h1
    change (adjustJac env self q_in base_position chain_base).jac_.coeff? i N = _ at h0
    change (adjustJac env self q_in base_position chain_base).jac_.coeff? i (N + 1) = _ at h1
    rw [h0, h1]
    fin_cases i <;> simp at hi ⊢

/-- C3, evaluated on the sample chain: base ratio `1`, identity orientation,
base at the origin. -/
theorem adjustJac_identity_origin_sample :
    (sampleSolver true 1).params_.base_active = true ∧
    sampleEnv.GetQuaternion (sampleFrame 0 0 0).M = ⟨0, 0, 0, 1⟩ ∧
    (sampleFrame 0 0 0).p = ⟨0, 0, 0⟩ ∧
    (adjustJac sampleEnv (sampleSolver true 1) (fun _ => 0) (sampleFrame 0 0 0)
        (sampleFrame 0 0 0)).jac_.coeff? 5 (2 + 2)
      = some (if (5 : Fin 6) = 5 then (sampleSolver true 1).params_.base_ratio else 0) :=
  have hq : sampleEnv.GetQuaternion (sampleFrame 0 0 0).M = ⟨0, 0, 0, 1⟩ := by
    simp [sampleEnv, sampleFrame]
  ⟨rfl, hq, rfl, (adjustJac_identity_origin sampleEnv (sampleSolver true 1) (fun _ => 0)
    (sampleFrame 0 0 0) (sampleFrame 0 0 0) rfl hq rfl).1 5⟩

/-- For every quaternion whose `x` and `y` coefficients vanish (whatever its
norm), the angular rows of the yaw column are `(0, 0, base_ratio)`. -/
theorem jac_b_yaw_angular_of_z_axis (b z w : K) (base_position : Frame K) :
    jac_b b base_position ⟨0, 0, z, w⟩ 3 2 = 0 ∧ jac_b b base_position ⟨0, 0, z, w⟩ 4 2 = 0 ∧
    jac_b b base_position ⟨0, 0, z, w⟩ 5 2 = b := by
  obtain ⟨-, -, -, c3, c4, c5⟩ := jac_b_yaw b base_position ⟨0, 0, z, w⟩
  obtain ⟨t0, t1, t2⟩ := transformVector_apply (⟨0, 0, z, w⟩ : Quaterniond K) ![0, 0, b]
  rw [c3, c4, c5, t0, t1, t2]
  simp

/-- C10. For a unit-norm chain-base quaternion the linear rows of the yaw
column are `px` times those of appended column 1 minus `py` times those of
appended column 0, that is `b * R * (-py, px, 0)`; the yaw column does not
depend on `pz`, its linear part is orthogonal to its angular part, and the
linear part vanishes when `px = py = 0`. -/
theorem jac_b_yaw_unit (b : K) (p : Frame K) (q : Quaterniond K)
    (hq : q.x * q.x + q.y * q.y + q.z * q.z + q.w * q.w = 1) :
    (jac_b b p q 0 2 = p.p.x * jac_b b p q 0 1 - p.p.y * jac_b b p q 0 0 ∧
     jac_b b p q 1 2 = p.p.x * jac_b b p q 1 1 - p.p.y * jac_b b p q 1 0 ∧
     jac_b b p q 2 2 = p.p.x * jac_b b p q 2 1 - p.p.y * jac_b b p q 2 0) ∧
    (jac_b b p q 0 2 = b * q.toRotationMatrix.mulVec ![-p.p.y, p.p.x, 0] 0 ∧
     jac_b b p q 1 2 = b * q.toRotationMatrix.mulVec ![-p.p.y, p.p.x, 0] 1 ∧
     jac_b b p q 2 2 = b * q.toRotationMatrix.mulVec ![-p.p.y, p.p.x, 0] 2) ∧
    (∀ (M2 : Rotation K) (pz2 : K) (i : Fin 6),
      jac_b b ⟨M2, ⟨p.p.x, p.p.y, pz2⟩⟩ q i 2 = jac_b b p q i 2) ∧
    (jac_b b p q 0 2 * jac_b b p q 3 2 + jac_b b p q 1 2 * jac_b b p q 4 2
      + jac_b b p q 2 2 * jac_b b p q 5 2 = 0) ∧
    (p.p.x = 0 → p.p.y = 0 →
      jac_b b p q 0 2 = 0 ∧ jac_b b p q 1 2 = 0 ∧ jac_b b p q 2 2 = 0) := by
  obtain ⟨a0, a1, a2, a3, a4, a5⟩ := jac_b_trans_lin b p q
  obtain ⟨c0, c1, c2, c3, c4, c5⟩ := jac_b_yaw b p q
  obtain ⟨r00, r01, r02, r10, r11, r12, r20, r21, r22⟩ := toRotationMatrix_apply q
  obtain ⟨t0, t1, t2⟩ := transformVector_apply q ![0, 0, b]
  obtain ⟨u0, u1, u2⟩ := transformVector_apply q ![p.p.x, p.p.y, p.p.z]
  have e0 : cross (q.transformVector ![0, 0, b]) (q.transformVector ![p.p.x, p.p.y, p.p.z]) 0
      = q.transformVector ![0, 0, b] 1 * q.transformVector ![p.p.x, p.p.y, p.p.z] 2
        - q.transformVector ![0, 0, b] 2 * q.transformVector ![p.p.x, p.p.y, p.p.z] 1 := rfl
  have e1 : cross (q.transformVector ![0, 0, b]) (q.transformVector ![p.p.x, p.p.y, p.p.z]) 1
      = q.transformVector ![0, 0, b] 2 * q.transformVector ![p.p.x, p.p.y, p.p.z] 0
        - q.transformVector ![0, 0, b] 0 * q.transformVector ![p.p.x, p.p.y, p.p.z] 2 := rfl
  have e2 : cross (q.transformVector ![0, 0, b]) (q.transformVector ![p.p.x, p.p.y, p.p.z]) 2
      = q.transformVector ![0, 0, b] 0 * q.transformVector ![p.p.x, p.p.y, p.p.z] 1
        - q.transformVector ![0, 0, b] 1 * q.transformVector ![p.p.x, p.p.y, p.p.z] 0 := rfl
  rw [e0] at c0
  rw [e1] at c1
  rw [e2] at c2
  simp only [t0, t1, t2, u0, u1, u2, Matrix.cons_val_zero, Matrix.cons_val_one, Matrix.head_cons,
    Matrix.cons_val_two, Matrix.tail_cons] at c0 c1 c2 c3 c4 c5
  rw [r00] at a0
  rw [r10] at a1
  rw [r20] at a2
  rw [r01] at a3
  rw [r11] at a4
  rw [r21] at a5
  have l0 : jac_b b p q 0 2 = p.p.x * jac_b b p q 0 1 - p.p.y * jac_b b p q 0 0 := by
    rw [c0, a0, a3]
    linear_combination (4 * q.x * q.y * b * p.p.x - 4 * q.x ^ 2 * b * p.p.y) * hq
  have l1 : jac_b b p q 1 2 = p.p.x * jac_b b p q 1 1 - p.p.y * jac_b b p q 1 0 := by
    rw [c1, a1, a4]
    linear_combination (4 * q.y ^ 2 * b * p.p.x - 4 * q.x * q.y * b * p.p.y) * hq
  have l2 : jac_b b p q 2 2 = p.p.x * jac_b b p q 2 1 - p.p.y * jac_b b p q 2 0 := by
    rw [c2, a2, a5]
    linear_combination (4 * q.y * q.z * b * p.p.x - 4 * q.x * q.z * b * p.p.y) * hq
  refine ⟨⟨l0, l1, l2⟩, ⟨?_, ?_, ?_⟩, ?_, ?_, ?_⟩
  · rw [l0, a0, a3]
    simp only [Matrix.mulVec, Matrix.dotProduct, Fin.sum_univ_three, r00, r01, r02,
      Matrix.cons_val_zero, Matrix.cons_val_one, Matrix.head_cons, Matrix.cons_val_two,
      Matrix.tail_cons]
    ring
  · rw [l1, a1, a4]
    simp only [Matrix.mulVec, Matrix.dotProduct, Fin.sum_univ_three, r10, r11, r12,
      Matrix.cons_val_zero, Matrix.cons_val_one, Matrix.head_cons, Matrix.cons_val_two,
      Matrix.tail_cons]
    ring
  · rw [l2, a2, a5]
    simp only [Matrix.mulVec, Matrix.dotProduct, Fin.sum_univ_three, r20, r21, r22,
      Matrix.cons_val_zero, Matrix.cons_val_one, Matrix.head_cons, Matrix.cons_val_two,
      Matrix.tail_cons]
    ring
  · intro M2 pz2
    obtain ⟨d0, d1, d2, d3, d4, d5⟩ := jac_b_yaw b ⟨M2, ⟨p.p.x, p.p.y, pz2⟩⟩ q
    obtain ⟨v0, v1, v2⟩ := transformVector_apply q ![p.p.x, p.p.y, pz2]
    have f0 : cross (q.transformVector ![0, 0, b]) (q.transformVector ![p.p.x, p.p.y, pz2]) 0
        = q.transformVector ![0, 0, b] 1 * q.transformVector ![p.p.x, p.p.y, pz2] 2
          - q.transformVector ![0, 0, b] 2 * q.transformVector ![p.p.x, p.p.y, pz2] 1 := rfl
    have f1 : cross (q.transformVector ![0, 0, b]) (q.transformVector ![p.p.x, p.p.y, pz2]) 1
        = q.transformVector ![0, 0, b] 2 * q.transformVector ![p.p.x, p.p.y, pz2] 0
          - q.transformVector ![0, 0, b] 0 * q.transformVector ![p.p.x, p.p.y, pz2] 2 := rfl
    have f2 : cross (q.transformVector ![0, 0, b]) (q.transformVector ![p.p.x, p.p.y, pz2]) 2
        = q.transformVector ![0, 0, b] 0 * q.transformVector ![p.p.x, p.p.y, pz2] 1
          - q.transformVector ![0, 0, b] 1 * q.transformVector ![p.p.x, p.p.y, pz2] 0 := rfl
    rw [f0] at d0
    rw [f1] at d1
    rw [f2] at d2
    simp only [t0, t1, t2, v0, v1, v2, Matrix.cons_val_zero, Matrix.cons_val_one,
      Matrix.head_cons, Matrix.cons_val_two, Matrix.tail_cons] at d0 d1 d2 d3 d4 d5
    intro i
    fin_cases i
    · show jac_b b ⟨M2, ⟨p.p.x, p.p.y, pz2⟩⟩ q 0 2 = jac_b b p q 0 2
      rw [d0, c0]; ring
    · show jac_b b ⟨M2, ⟨p.p.x, p.p.y, pz2⟩⟩ q 1 2 = jac_b b p q 1 2
      rw [d1, c1]; ring
    · show jac_b b ⟨M2, ⟨p.p.x, p.p.y, pz2⟩⟩ q 2 2 = jac_b b p q 2 2
      rw [d2, c2]; ring
    · show jac_b b ⟨M2, ⟨p.p.x, p.p.y, pz2⟩⟩ q 3 2 = jac_b b p q 3 2
      rw [d3, c3]
    · show jac_b b ⟨M2, ⟨p.p.x, p.p.y, pz2⟩⟩ q 4 2 = jac_b b p q 4 2
      rw [d4, c4]
    · show jac_b b ⟨M2, ⟨p.p.x, p.p.y, pz2⟩⟩ q 5 2 = jac_b b p q 5 2
      rw [d5, c5]
  · rw [c0, c1, c2, c3, c4, c5]; ring
  · intro hx hy
    rw [l0, l1, l2, hx, hy]
    simp

/-- C10, evaluated at the unit quaternion `(3/5, 0, 0, 4/5)` with base ratio
`2` and base position `(1, 2, 3)`. -/
theorem jac_b_yaw_unit_sample :
    ((3 / 5 : ℚ) * (3 / 5) + 0 * 0 + 0 * 0 + (4 / 5) * (4 / 5) = 1) ∧
    jac_b (2 : ℚ) (sampleFrame 1 2 3) ⟨3 / 5, 0, 0, 4 / 5⟩ 0 2
      = (sampleFrame 1 2 3).p.x * jac_b (2 : ℚ) (sampleFrame 1 2 3) ⟨3 / 5, 0, 0, 4 / 5⟩ 0 1
        - (sampleFrame 1 2 3).p.y * jac_b (2 : ℚ) (sampleFrame 1 2 3) ⟨3 / 5, 0, 0, 4 / 5⟩ 0 0 :=
  ⟨by norm_num, (jac_b_yaw_unit (2 : ℚ) (sampleFrame 1 2 3) ⟨3 / 5, 0, 0, 4 / 5⟩
    (by norm_num)).1.1⟩

end Augmentation

/-! ## The degenerate frame of the four-argument overloads -/

section DummyFrame

variable {F : Type} [LinearOrderedField F]

/-- KDL `Rotation::Quaternion(0,0,0,0)` stores the zero matrix. -/
theorem Rotation.Quaternion_zero : Rotation.Quaternion (0 : F) 0 0 0 = 0 := by
  ext i j
  fin_cases i <;> fin_cases j <;> simp [Rotation.Quaternion, Matrix.vecHead, Matrix.vecTail]

/-- KDL's conversion turns the zero matrix into the quaternion
`(x, y, z, w) = (0, 0, 1/2, 0)`: the trace test and both diagonal comparisons
fail, so the last branch runs with `s = 2 * sqrt 1`. -/
theorem GetQuaternion_zero_matrix (sqrt : F → F) (hsqrt : sqrt 1 = 1) :
    Rotation.GetQuaternion sqrt (Rotation.Quaternion (0 : F) 0 0 0) = ⟨0, 0, 1 / 2, 0⟩ := by
  rw [Rotation.Quaternion_zero]
  have heps : ¬ ((0 : F) > 1 / 10 ^ 12) := by
    have : (0 : F) < 1 / 10 ^ 12 := by positivity
    exact not_lt.mpr this.le
  simp only [Rotation.GetQuaternion, Matrix.zero_apply, add_zero, sub_zero, heps, if_false,
    gt_iff_lt, lt_self_iff_false, and_self, hsqrt, zero_div, mul_one]
  norm_num

/-- The base block for the quaternion `(0, 0, 1/2, 0)`. -/
theorem jac_b_of_dummy_quat (b : F) (base_position : Frame F) :
    ∀ i j, jac_b b base_position ⟨0, 0, 1 / 2, 0⟩ i j =
      if j = 0 then (if i = 0 then b / 2 else 0)
      else if j = 1 then (if i = 1 then b / 2 else 0)
      else (if i = 0 then -(b * base_position.p.y / 2)
            else if i = 1 then b * base_position.p.x / 2
            else if i = 5 then b else 0) := by
  obtain ⟨a0, a1, a2, a3, a4, a5⟩ := jac_b_trans_lin b base_position ⟨0, 0, 1 / 2, 0⟩
  obtain ⟨b0, b1, b2, b3, b4, b5⟩ := jac_b_trans_ang b base_position ⟨0, 0, 1 / 2, 0⟩
  obtain ⟨c0, c1, c2, c3, c4, c5⟩ := jac_b_yaw b base_position ⟨0, 0, 1 / 2, 0⟩
  obtain ⟨r00, r01, r02, r10, r11, r12, r20, r21, r22⟩ :=
    toRotationMatrix_apply (⟨0, 0, 1 / 2, 0⟩ : Quaterniond F)
  obtain ⟨t0, t1, t2⟩ :=
    transformVector_apply (⟨0, 0, 1 / 2, 0⟩ : Quaterniond F) ![0, 0, b]
  obtain ⟨u0, u1, u2⟩ := transformVector_apply (⟨0, 0, 1 / 2, 0⟩ : Quaterniond F)
    ![base_position.p.x, base_position.p.y, base_position.p.z]
  have e0 : ∀ a c : Vector3d F, cross a c 0 = a 1 * c 2 - a 2 * c 1 := fun _ _ => rfl
  have e1 : ∀ a c : Vector3d F, cross a c 1 = a 2 * c 0 - a 0 * c 2 := fun _ _ => rfl
  have e2 : ∀ a c : Vector3d F, cross a c 2 = a 0 * c 1 - a 1 * c 0 := fun _ _ => rfl
  rw [e0] at c0
  rw [e1] at c1
  rw [e2] at c2
  simp only [t0, t1, t2, u0, u1, u2, Matrix.cons_val_zero, Matrix.cons_val_one, Matrix.head_cons,
    Matrix.cons_val_two, Matrix.tail_cons] at c0 c1 c2 c3 c4 c5
  apply forall_fin6_fin3
  refine ⟨⟨?_, ?_, ?_, ?_, ?_, ?_⟩, ⟨?_, ?_, ?_, ?_, ?_, ?_⟩, ⟨?_, ?_, ?_, ?_, ?_, ?_⟩⟩
  · rw [a0, r00]; simp; ring
  · rw [a1, r10]; simp
  · rw [a2, r20]; simp
  · rw [b0]; simp
  · rw [b1]; simp
  · rw [b2]; simp
  · rw [a3, r01]; simp
  · rw [a4, r11]; simp; ring
  · rw [a5, r21]; simp
  · rw [b3]; simp
  · rw [b4]; simp
  · rw [b5]; simp
  · rw [c0]; simp; ring
  · rw [c1]; simp; ring
  · rw [c2]; simp
  · rw [c3]; simp
  · rw [c4]; simp
  · rw [c5]; simp

/-- The appended columns that `adjustJac` builds from the degenerate rotation
`KDL::Rotation::Quaternion(0,0,0,0)`. -/
theorem adjustJac_dummy_coeffs {N : Nat} (env : Collaborators F N)
    (self : InverseDifferentialKinematicsSolver F) (q_in : JntArray F)
    (base_position chain_base : Frame F) (sqrt : F → F) (hsqrt : sqrt 1 = 1)
    (hconv : env.GetQuaternion chain_base.M = Rotation.GetQuaternion sqrt chain_base.M)
    (hM : chain_base.M = Rotation.Quaternion 0 0 0 0)
    (hact : self.params_.base_active = true) (i : Fin 6) (j : Fin 3) :
    (adjustJac env self q_in base_position chain_base).jac_.coeff? i (N + j.val) = some (
      if j = 0 then (if i = 0 then self.params_.base_ratio / 2 else 0)
      else if j = 1 then (if i = 1 then self.params_.base_ratio / 2 else 0)
      else (if i = 0 then -(self.params_.base_ratio * base_position.p.y / 2)
            else if i = 1 then self.params_.base_ratio * base_position.p.x / 2
            else if i = 5 then self.params_.base_ratio else 0)) := by
  obtain ⟨-, -, hb⟩ := adjustJac_active_coeffs env self q_in base_position chain_base hact
  rw [hb i j, hconv, hM, GetQuaternion_zero_matrix sqrt hsqrt,
    jac_b_of_dummy_quat self.params_.base_ratio base_position i j]

/-- C9, refuted as stated: with the base active, base ratio `1` and the
degenerate chain-base rotation of the dummy frame, the appended columns are
not all zero (coefficient `(0, N)` is `1/2`). -/
theorem adjustJac_dummy_frame_not_zero :
    ¬ (∀ (i : Fin 6) (j : Fin 3),
        (adjustJac kdlEnv (sampleSolver true 1) (fun _ => 0) dummy dummy).jac_.coeff? i
          (2 + j.val) = some 0) := by
  intro hall
  have h := hall 0 0
  have hs : Rat.sqrt 1 = 1 := by simp
  rw [adjustJac_dummy_coeffs kdlEnv (sampleSolver true 1) (fun _ => 0) dummy dummy Rat.sqrt hs
    rfl rfl rfl 0 0] at h
  simp [sampleSolver] at h

/-- C9, amended. Base active and chain-base rotation
`KDL::Rotation::Quaternion(0,0,0,0)`: KDL converts it to the quaternion
`(0, 0, 1/2, 0)` and `adjustJac` yields the appended columns
`(b/2,0,0,0,0,0)`, `(0,b/2,0,0,0,0)` and `(-b*py/2, b*px/2, 0, 0, 0, b)`,
which are all zero exactly when the base ratio `b` is zero. -/
theorem adjustJac_dummy_frame {N : Nat} (env : Collaborators F N)
    (self : InverseDifferentialKinematicsSolver F) (q_in : JntArray F)
    (base_position chain_base : Frame F) (sqrt : F → F) (hsqrt : sqrt 1 = 1)
    (hconv : env.GetQuaternion chain_base.M = Rotation.GetQuaternion sqrt chain_base.M)
    (hM : chain_base.M = Rotation.Quaternion 0 0 0 0)
    (hact : self.params_.base_active = true) :
    env.GetQuaternion chain_base.M = ⟨0, 0, 1 / 2, 0⟩ ∧
    (∀ (i : Fin 6) (j : Fin 3),
      (adjustJac env self q_in base_position chain_base).jac_.coeff? i (N + j.val) = some (
        if j = 0 then (if i = 0 then self.params_.base_ratio / 2 else 0)
        else if j = 1 then (if i = 1 then self.params_.base_ratio / 2 else 0)
        else (if i = 0 then -(self.params_.base_ratio * base_position.p.y / 2)
              else if i = 1 then self.params_.base_ratio * base_position.p.x / 2
              else if i = 5 then self.params_.base_ratio else 0))) ∧
    ((∀ (i : Fin 6) (j : Fin 3),
      (adjustJac env self q_in base_position chain_base).jac_.coeff? i (N + j.val) = some 0)
      ↔ self.params_.base_ratio = 0) := by
  have hcols := adjustJac_dummy_coeffs env self q_in base_position chain_base sqrt hsqrt hconv hM
    hact
  refine ⟨?_, hcols, ?_, ?_⟩
  · rw [hconv, hM, GetQuaternion_zero_matrix sqrt hsqrt]
  · intro hall
    have h := hall 5 2
    rw [hcols 5 2] at h
    simpa using h
  · intro hzero i j
    rw [hcols i j, hzero]
    simp

/-- C9 amended, evaluated on the dummy frame with KDL's conversion and base
ratio `1`. -/
theorem adjustJac_dummy_frame_sample :
    Rat.sqrt 1 = 1 ∧
    kdlEnv.GetQuaternion dummy.M = Rotation.GetQuaternion Rat.sqrt dummy.M ∧
    dummy.M = Rotation.Quaternion 0 0 0 0 ∧
    (sampleSolver true 1).params_.base_active = true ∧
    kdlEnv.GetQuaternion dummy.M = ⟨0, 0, 1 / 2, 0⟩ :=
  have hs : Rat.sqrt 1 = 1 := by simp
  ⟨hs, rfl, rfl, rfl, (adjustJac_dummy_frame kdlEnv (sampleSolver true 1) (fun _ => 0) dummy dummy
    Rat.sqrt hs rfl rfl rfl).1⟩

end DummyFrame

/-! ## The per-tick entry point -/

section Orchestration

variable {K : Type} [CommRing K]

/-- The solver object that `CartToJnt` leaves behind. -/
theorem CartToJnt_self {N : Nat} (env : Collaborators K N)
    (self : InverseDifferentialKinematicsSolver K) (q_in last_q_dot : JntArray K)
    (v_in : Twist K) (base_position chain_base : Frame K) (qdot_out : JntArray K) :
    (CartToJnt env self q_in last_q_dot v_in base_position chain_base qdot_out).self =
      { beforeSolve env self q_in base_position chain_base with
        last_p_in_vec_ := p_in_vec env q_in } := rfl

/-- The member `params_.delta_p_vec` at the moment the solver is invoked. -/
theorem beforeSolve_delta {N : Nat} (env : Collaborators K N)
    (self : InverseDifferentialKinematicsSolver K) (q_in : JntArray K)
    (base_position chain_base : Frame K) :
    (beforeSolve env self q_in base_position chain_base).params_.delta_p_vec
      = p_in_vec env q_in - self.last_p_in_vec_ := by
  simp [beforeSolve, (adjustJac_frame env self q_in base_position chain_base).2]

/-- The member `jac_` at the moment the solver is invoked. -/
theorem beforeSolve_jac {N : Nat} (env : Collaborators K N)
    (self : InverseDifferentialKinematicsSolver K) (q_in : JntArray K)
    (base_position chain_base : Frame K) :
    (beforeSolve env self q_in base_position chain_base).jac_
      = (adjustJac env self q_in base_position chain_base).jac_ := rfl

/-- C4. Two consecutive calls with pose vectors `P1` then `P2`: for every
constraint solver (hence every pair of statuses), `last_p_in_vec_` equals the
pose vector after each call, and the `delta_p_vec` the solver receives on the
second call, which stays stored in `params_`, is `P2 - P1` componentwise. -/
theorem CartToJnt_delta_pose {N : Nat} (env : Collaborators K N)
    (self : InverseDifferentialKinematicsSolver K) (q1 q2 last1 last2 : JntArray K)
    (v1 v2 : Twist K) (bp1 cb1 bp2 cb2 : Frame K) (out1 out2 : JntArray K) :
    (CartToJnt env self q1 last1 v1 bp1 cb1 out1).self.last_p_in_vec_ = p_in_vec env q1 ∧
    (CartToJnt env (CartToJnt env self q1 last1 v1 bp1 cb1 out1).self
        q2 last2 v2 bp2 cb2 out2).self.last_p_in_vec_ = p_in_vec env q2 ∧
    solverCall env (CartToJnt env self q1 last1 v1 bp1 cb1 out1).self q2 last2 v2 bp2 cb2
      = env.calculateJointVelocities
          (beforeSolve env (CartToJnt env self q1 last1 v1 bp1 cb1 out1).self q2 bp2 cb2).params_
          (beforeSolve env (CartToJnt env self q1 last1 v1 bp1 cb1 out1).self q2 bp2 cb2).jac_
          (twistKDLToEigen v2) q2 last2 ∧
    (∀ i, (beforeSolve env (CartToJnt env self q1 last1 v1 bp1 cb1 out1).self
        q2 bp2 cb2).params_.delta_p_vec i = p_in_vec env q2 i - p_in_vec env q1 i) ∧
    (∀ i, (CartToJnt env (CartToJnt env self q1 last1 v1 bp1 cb1 out1).self
        q2 last2 v2 bp2 cb2 out2).self.params_.delta_p_vec i
          = p_in_vec env q2 i - p_in_vec env q1 i) := by
  have hlast : ∀ (s : InverseDifferentialKinematicsSolver K) (q l : JntArray K) (v : Twist K)
      (bp cb : Frame K) (o : JntArray K),
      (CartToJnt env s q l v bp cb o).self.last_p_in_vec_ = p_in_vec env q := by
    intro s q l v bp cb o
    rfl
  refine ⟨hlast _ _ _ _ _ _ _, hlast _ _ _ _ _ _ _, rfl, ?_, ?_⟩
  · intro i
    rw [beforeSolve_delta, hlast]
    rfl
  · intro i
    rw [CartToJnt_self]
    show (beforeSolve env (CartToJnt env self q1 last1 v1 bp1 cb1 out1).self
        q2 bp2 cb2).params_.delta_p_vec i = _
    rw [beforeSolve_delta, hlast]
    rfl

/-- C5. `CartToJnt` overwrites `qdot_out` at the indices `0 .. M-1` with the
solver's output and nowhere else, `M` being the column count of `jac_`:
`N` with the base inactive and `N + 3` with the base active. -/
theorem CartToJnt_output_entries {N : Nat} (env : Collaborators K N)
    (self : InverseDifferentialKinematicsSolver K) (q_in last_q_dot : JntArray K)
    (v_in : Twist K) (base_position chain_base : Frame K) (qdot_out : JntArray K) :
    (CartToJnt env self q_in last_q_dot v_in base_position chain_base qdot_out).self.jac_.columns
      = (if self.params_.base_active then N + 3 else N) ∧
    (∀ i, i < (CartToJnt env self q_in last_q_dot v_in base_position chain_base
          qdot_out).self.jac_.columns →
      (CartToJnt env self q_in last_q_dot v_in base_position chain_base qdot_out).qdot_out i
        = (solverCall env self q_in last_q_dot v_in base_position chain_base).2 i) ∧
    (∀ i, (CartToJnt env self q_in last_q_dot v_in base_position chain_base
          qdot_out).self.jac_.columns ≤ i →
      (CartToJnt env self q_in last_q_dot v_in base_position chain_base qdot_out).qdot_out i
        = qdot_out i) := by
  have hcols : (CartToJnt env self q_in last_q_dot v_in base_position chain_base
      qdot_out).self.jac_.columns = (if self.params_.base_active then N + 3 else N) := by
    show (adjustJac env self q_in base_position chain_base).jac_.columns = _
    cases hb : self.params_.base_active
    · rw [adjustJac_jac_inactive env self q_in base_position chain_base hb]
      simp
    · rw [adjustJac_jac_active env self q_in base_position chain_base hb]
      simp
  have hout : ∀ i,
      (CartToJnt env self q_in last_q_dot v_in base_position chain_base qdot_out).qdot_out i
        = if i < (CartToJnt env self q_in last_q_dot v_in base_position chain_base
            qdot_out).self.jac_.columns
          then (solverCall env self q_in last_q_dot v_in base_position chain_base).2 i
          else qdot_out i := by
    intro i
    exact convertOutput_apply _ _ _ i
  refine ⟨hcols, ?_, ?_⟩
  · intro i hi
    rw [hout i, if_pos hi]
  · intro i hi
    rw [hout i, if_neg (by omega)]

end Orchestration

end CobTwist
